import Mathlib

/-!
Verification of the percentile-mapping core of the lipid percentile
visualizer (`streamlit_app.py`).  The numeric core is embedded shallowly
over `ℚ`: the reference tables are the hardcoded lists from the source,
`get_percentile` is the clamping wrapper around `numpy.interp`, and
`map_percentile_to_position` is the three-segment Lp(a) display remap.
-/

/-- Piecewise-linear interpolation, modelling `numpy.interp x xp fp` for an
increasing sample-point list `xp`: values below `xp[0]` give `fp[0]`, values
above `xp[-1]` give `fp[-1]`, and interior values are linearly interpolated
on the bracketing interval.  Degenerate shapes (empty or mismatched lists,
which raise in numpy and are guarded against by the caller) return junk. -/
def np_interp (x : ℚ) : List ℚ → List ℚ → ℚ
  | x0 :: x1 :: xs, y0 :: y1 :: ys =>
    if x ≤ x0 then y0
    else if x ≤ x1 then y0 + (x - x0) * (y1 - y0) / (x1 - x0)
    else np_interp x (x1 :: xs) (y1 :: ys)
  | [_], y0 :: _ => y0
  | _ :: _ :: _, [y0] => y0
  | _, [] => 0
  | [], _ => 0

/-- The shared percentile grid of the three standard markers
(source line 54). -/
def percentiles : List ℚ := [1, 5, 10, 20, 30, 40, 50, 60, 70, 80, 90, 95, 99]

/-- ApoB reference values (source line 55). -/
def apoB_values : List ℚ := [41, 54, 61, 70, 77, 84, 90, 97, 104, 113, 125, 137, 160]

/-- Non-HDL-C reference values (source line 56). -/
def nonHDL_values : List ℚ := [59, 79, 88, 103, 114, 125, 135, 145, 156, 170, 191, 208, 247]

/-- LDL-C reference values (source line 57). -/
def LDL_values : List ℚ := [45, 63, 72, 85, 95, 104, 112, 121, 131, 143, 161, 176, 211]

/-- Lp(a) percentile grid (source line 60). -/
def lpa_percentiles : List ℚ := [75, 80, 90, 95, 98, 99]

/-- Lp(a) reference values (source line 61). -/
def lpa_values : List ℚ := [47, 60, 90, 116, 180, 245]

/-- `get_percentile(value, perc_array, value_array)` from source lines 83-88:
clamp to `perc_array[0]` below `value_array[0]`, to `perc_array[-1]` above
`value_array[-1]`, otherwise `np.interp(value, value_array, perc_array)`.
Python index errors on an empty `value_array` (or an empty `perc_array` in a
taken clamp branch) and numpy's shape error on mismatched lengths are
modelled as `none`. -/
def get_percentile (value : ℚ) (perc_array value_array : List ℚ) : Option ℚ :=
  match value_array with
  | [] => none
  | v0 :: vs =>
    if value ≤ v0 then perc_array.head?
    else if vs.getLastD v0 ≤ value then perc_array.getLast?
    else if perc_array.length = vs.length + 1 then
      some (np_interp value (v0 :: vs) perc_array)
    else none

/-- Source line 91: `apoB_percentile = get_percentile(apoB, percentiles, apoB_values)`. -/
def apoB_percentile (apoB : ℚ) : Option ℚ := get_percentile apoB percentiles apoB_values

/-- Source line 92: `nonHDL_percentile = get_percentile(nonHDL, percentiles, nonHDL_values)`. -/
def nonHDL_percentile (nonHDL : ℚ) : Option ℚ := get_percentile nonHDL percentiles nonHDL_values

/-- Source line 93: `LDL_percentile = get_percentile(LDL, percentiles, LDL_values)`. -/
def LDL_percentile (LDL : ℚ) : Option ℚ := get_percentile LDL percentiles LDL_values

/-- Source line 94: `lpa_percentile = get_percentile(lpa, lpa_values, lpa_percentiles)`
(the Lp(a) call passes the value array in the percentile-array position and
vice versa). -/
def lpa_percentile (lpa : ℚ) : Option ℚ := get_percentile lpa lpa_values lpa_percentiles

/-- `get_risk_level(percentile, marker="lipid")` from source lines 97-111:
returns the (risk text, metric colour) pair. -/
def get_risk_level (percentile : ℚ) (marker : String := "lipid") : String × String :=
  if marker = "lpa" then
    if percentile < 75 then ("Low Risk", "normal")
    else if percentile < 90 then ("Moderate Risk", "off")
    else ("High Risk", "inverse")
  else
    if percentile ≤ 20 then ("Low Risk", "normal")
    else if percentile < 50 then ("Moderate Risk", "off")
    else ("High Risk", "inverse")

/-- `map_percentile_to_position` from source lines 353-366: the non-linear
Lp(a) display remap. -/
def map_percentile_to_position (percentile : ℚ) : ℚ :=
  if percentile ≤ 75 then percentile * (40 / 75)
  else if percentile ≤ 95 then 40 + (percentile - 75) * (30 / 20)
  else 70 + (percentile - 95) * (30 / 5)

/-- Claim C6: on the standard table with the ApoB values, `get_percentile`
at the exact table entry 90 returns percentile 50. -/
theorem apoB_table_hit_90 : get_percentile 90 percentiles apoB_values = some 50 := by
  norm_num [get_percentile, np_interp, percentiles, apoB_values, List.getLastD]

/-- Claim C5 counterexample: on the standard table with the ApoB values,
`get_percentile` at value 100 returns 450/7 (≈ 64.3).  This is neither the
linear interpolation between the rows (value 84, percentile 40) and
(value 90, percentile 50), which is 200/3 (≈ 66.7), nor approximately 45.7:
the result exceeds 46 by a wide margin, so the rows (84, 40) and (90, 50)
are not the bracketing rows of value 100. -/
theorem apoB_value_100_not_45_7 :
    get_percentile 100 percentiles apoB_values = some (450 / 7) ∧
    (450 / 7 : ℚ) ≠ 40 + (100 - 84) * (50 - 40) / (90 - 84) ∧
    ¬ (450 / 7 : ℚ) < 46 := by
  refine ⟨?_, by norm_num, by norm_num⟩
  norm_num [get_percentile, np_interp, percentiles, apoB_values, List.getLastD]

/-- Claim C5 (amended): on the standard table with the ApoB values,
`get_percentile` at value 100 equals the linear interpolation between the
bracketing rows (value 97, percentile 60) and (value 104, percentile 70),
namely 60 + (100 - 97) * (70 - 60) / (104 - 97) = 450/7 ≈ 64.3. -/
theorem apoB_value_100_interpolated :
    get_percentile 100 percentiles apoB_values =
      some (60 + (100 - 97) * (70 - 60) / (104 - 97)) ∧
    (60 + (100 - 97) * (70 - 60) / (104 - 97) : ℚ) = 450 / 7 := by
  constructor
  · norm_num [get_percentile, np_interp, percentiles, apoB_values, List.getLastD]
  · norm_num

/-- Claim C1: the three standard markers call
`get_percentile(x, percentiles, marker_values)`, while the Lp(a) percentile
is computed as `get_percentile(lpa, lpa_values, lpa_percentiles)`, so the
Lp(a) value array occupies the parameter position that receives the
percentile array for ApoB, Non-HDL-C and LDL-C; at the default input 30 this
reversed order changes the result (47 instead of 75). -/
theorem lpa_argument_order_reversed :
    (∀ v, apoB_percentile v = get_percentile v percentiles apoB_values) ∧
    (∀ v, nonHDL_percentile v = get_percentile v percentiles nonHDL_values) ∧
    (∀ v, LDL_percentile v = get_percentile v percentiles LDL_values) ∧
    (∀ v, lpa_percentile v = get_percentile v lpa_values lpa_percentiles) ∧
    lpa_percentile 30 ≠ get_percentile 30 lpa_percentiles lpa_values := by
  refine ⟨fun v => rfl, fun v => rfl, fun v => rfl, fun v => rfl, ?_⟩
  norm_num [lpa_percentile, get_percentile, np_interp, lpa_values,
    lpa_percentiles, List.getLastD]

/-- Claim C9: because of the reversed argument order, the Lp(a) percentile
clamps measurements at or below 75 to 47 (the first Lp(a) table value),
measurements at or above 99 to 245 (the last Lp(a) table value), and
interpolates measurements strictly between 75 and 99 over the map from
`lpa_percentiles` to `lpa_values`; in particular the high clamp 245 lies
outside the percentile range [0, 100]. -/
theorem lpa_percentile_is_table_value (m : ℚ) :
    (m ≤ 75 → lpa_percentile m = some 47) ∧
    (99 ≤ m → lpa_percentile m = some 245 ∧ (100 : ℚ) < 245) ∧
    (75 < m → m < 99 →
      lpa_percentile m = some (np_interp m lpa_percentiles lpa_values)) := by
  have hl : ([80, 90, 95, 98, 99] : List ℚ).getLastD 75 = 99 := rfl
  refine ⟨fun h => ?_, fun h => ⟨?_, by norm_num⟩, fun h1 h2 => ?_⟩
  · simp only [lpa_percentile, get_percentile, lpa_values, lpa_percentiles]
    rw [if_pos h]
    rfl
  · simp only [lpa_percentile, get_percentile, lpa_values, lpa_percentiles]
    rw [hl, if_neg (by linarith), if_pos h]
    rfl
  · simp only [lpa_percentile, get_percentile, lpa_values, lpa_percentiles]
    rw [hl, if_neg (by linarith), if_neg (by linarith), if_pos (by norm_num)]

/-- Claim C9 witness: the three cases at the concrete measurements 30, 200
and 85. -/
theorem lpa_percentile_is_table_value_cases :
    lpa_percentile 30 = some 47 ∧
    lpa_percentile 200 = some 245 ∧
    lpa_percentile 85 = some (np_interp 85 lpa_percentiles lpa_values) :=
  ⟨(lpa_percentile_is_table_value 30).1 (by norm_num),
   ((lpa_percentile_is_table_value 200).2.1 (by norm_num)).1,
   (lpa_percentile_is_table_value 85).2.2 (by norm_num) (by norm_num)⟩

/-- Claim C7: `get_risk_level` is a pure piecewise function of the
percentile whose risk text is always one of the three labels, with bands
75/90 in Lp(a) mode and 20/50 in standard (`"lipid"`) mode. -/
theorem get_risk_level_bands (p : ℚ) :
    ((get_risk_level p "lpa").1 = "Low Risk" ∨
      (get_risk_level p "lpa").1 = "Moderate Risk" ∨
      (get_risk_level p "lpa").1 = "High Risk") ∧
    ((get_risk_level p "lipid").1 = "Low Risk" ∨
      (get_risk_level p "lipid").1 = "Moderate Risk" ∨
      (get_risk_level p "lipid").1 = "High Risk") ∧
    (p < 75 → (get_risk_level p "lpa").1 = "Low Risk") ∧
    (75 ≤ p → p < 90 → (get_risk_level p "lpa").1 = "Moderate Risk") ∧
    (90 ≤ p → (get_risk_level p "lpa").1 = "High Risk") ∧
    (p ≤ 20 → (get_risk_level p "lipid").1 = "Low Risk") ∧
    (20 < p → p < 50 → (get_risk_level p "lipid").1 = "Moderate Risk") ∧
    (50 ≤ p → (get_risk_level p "lipid").1 = "High Risk") := by
  simp only [get_risk_level, reduceIte]
  refine ⟨?_, ?_, fun h => ?_, fun h1 h2 => ?_, fun h => ?_, fun h => ?_,
    fun h1 h2 => ?_, fun h => ?_⟩ <;> split_ifs <;>
    first | tauto | linarith

/-- Claim C7 witness: concrete classifications in each band at percentiles
10, 80 and 95 (Lp(a) mode) and 10, 30 and 80 (standard mode). -/
theorem get_risk_level_bands_cases :
    (get_risk_level 10 "lpa").1 = "Low Risk" ∧
    (get_risk_level 80 "lpa").1 = "Moderate Risk" ∧
    (get_risk_level 95 "lpa").1 = "High Risk" ∧
    (get_risk_level 10 "lipid").1 = "Low Risk" ∧
    (get_risk_level 30 "lipid").1 = "Moderate Risk" ∧
    (get_risk_level 80 "lipid").1 = "High Risk" :=
  ⟨(get_risk_level_bands 10).2.2.1 (by norm_num),
   (get_risk_level_bands 80).2.2.2.1 (by norm_num) (by norm_num),
   (get_risk_level_bands 95).2.2.2.2.1 (by norm_num),
   (get_risk_level_bands 10).2.2.2.2.2.1 (by norm_num),
   (get_risk_level_bands 30).2.2.2.2.2.2.1 (by norm_num) (by norm_num),
   (get_risk_level_bands 80).2.2.2.2.2.2.2 (by norm_num)⟩

/-- Claim C4: `map_percentile_to_position` is the three-segment
piecewise-linear remap: on [0, 75] it is the linear map onto [0, 40], on
(75, 95] the linear map onto (40, 70], and on (95, 100] the linear map onto
(70, 100]; in particular it sends 75 to 40, 95 to 70 and 99 to 94. -/
theorem map_percentile_to_position_segments :
    map_percentile_to_position 75 = 40 ∧
    map_percentile_to_position 95 = 70 ∧
    map_percentile_to_position 99 = 94 ∧
    (∀ p : ℚ, p ≤ 75 → map_percentile_to_position p = p * (40 / 75)) ∧
    (∀ p : ℚ, 75 < p → p ≤ 95 →
      map_percentile_to_position p = 40 + (p - 75) * (30 / 20)) ∧
    (∀ p : ℚ, 95 < p →
      map_percentile_to_position p = 70 + (p - 95) * (30 / 5)) ∧
    (∀ p : ℚ, 0 ≤ p → p ≤ 75 →
      0 ≤ map_percentile_to_position p ∧ map_percentile_to_position p ≤ 40) ∧
    (∀ p : ℚ, 75 < p → p ≤ 95 →
      40 < map_percentile_to_position p ∧ map_percentile_to_position p ≤ 70) ∧
    (∀ p : ℚ, 95 < p → p ≤ 100 →
      70 < map_percentile_to_position p ∧
        map_percentile_to_position p ≤ 100) := by
  refine ⟨by norm_num [map_percentile_to_position],
    by norm_num [map_percentile_to_position],
    by norm_num [map_percentile_to_position],
    fun p h => ?_, fun p h1 h2 => ?_, fun p h => ?_,
    fun p h1 h2 => ?_, fun p h1 h2 => ?_, fun p h1 h2 => ?_⟩ <;>
    simp only [map_percentile_to_position] <;> split_ifs <;>
    first | (constructor <;> linarith) | linarith

/-- Claim C4 witness: the three quoted values together with segment
formulas and ranges at the concrete percentiles 30, 80 and 99. -/
theorem map_percentile_to_position_segments_cases :
    map_percentile_to_position 75 = 40 ∧
    map_percentile_to_position 95 = 70 ∧
    map_percentile_to_position 99 = 94 ∧
    map_percentile_to_position 30 = 30 * (40 / 75) ∧
    map_percentile_to_position 80 = 40 + (80 - 75) * (30 / 20) ∧
    map_percentile_to_position 99 = 70 + (99 - 95) * (30 / 5) ∧
    (40 < map_percentile_to_position 80 ∧ map_percentile_to_position 80 ≤ 70) :=
  ⟨map_percentile_to_position_segments.1,
   map_percentile_to_position_segments.2.1,
   map_percentile_to_position_segments.2.2.1,
   map_percentile_to_position_segments.2.2.2.1 30 (by norm_num),
   map_percentile_to_position_segments.2.2.2.2.1 80 (by norm_num) (by norm_num),
   map_percentile_to_position_segments.2.2.2.2.2.1 99 (by norm_num),
   map_percentile_to_position_segments.2.2.2.2.2.2.2.1 80 (by norm_num)
     (by norm_num)⟩

/-- Claim C8: the four reference tables are strictly increasing in both
fields — the shared standard percentile grid and the ApoB, Non-HDL-C and
LDL-C value arrays, and the Lp(a) percentile and value arrays — and every
percentile entry lies in [0, 100].  The tables are top-level constants of
the embedding (plain `def`s of literal lists), so no operation of the
program can mutate them. -/
theorem reference_tables_sorted :
    percentiles.Chain' (fun a b => a < b) ∧
    apoB_values.Chain' (fun a b => a < b) ∧
    nonHDL_values.Chain' (fun a b => a < b) ∧
    LDL_values.Chain' (fun a b => a < b) ∧
    lpa_percentiles.Chain' (fun a b => a < b) ∧
    lpa_values.Chain' (fun a b => a < b) ∧
    (∀ p ∈ percentiles, 0 ≤ p ∧ p ≤ 100) ∧
    (∀ p ∈ lpa_percentiles, 0 ≤ p ∧ p ≤ 100) := by
  refine ⟨?_, ?_, ?_, ?_, ?_, ?_, ?_, ?_⟩ <;>
    norm_num [percentiles, apoB_values, nonHDL_values, LDL_values,
      lpa_percentiles, lpa_values, List.chain'_cons]

/-- Claim C8 witness: the percentile-range bound applied at the concrete
entries 50 of the standard grid and 98 of the Lp(a) grid. -/
theorem reference_tables_sorted_entries :
    ((0 : ℚ) ≤ 50 ∧ (50 : ℚ) ≤ 100) ∧ ((0 : ℚ) ≤ 98 ∧ (98 : ℚ) ≤ 100) :=
  ⟨reference_tables_sorted.2.2.2.2.2.2.1 50 (by norm_num [percentiles]),
   reference_tables_sorted.2.2.2.2.2.2.2 98 (by norm_num [lpa_percentiles])⟩

/-- Claim C10: `map_percentile_to_position` is continuous at its two
breakpoints (the adjacent segment formulas agree with it at 75 and at 95),
fixes the endpoints 0 and 100, and is strictly increasing on [0, 100];
together with surjectivity onto [0, 100] it is therefore a strictly
increasing bijection of [0, 100] onto itself. -/
theorem map_percentile_to_position_bijection :
    map_percentile_to_position 75 = 75 * (40 / 75) ∧
    map_percentile_to_position 75 = 40 + ((75 : ℚ) - 75) * (30 / 20) ∧
    map_percentile_to_position 95 = 40 + ((95 : ℚ) - 75) * (30 / 20) ∧
    map_percentile_to_position 95 = 70 + ((95 : ℚ) - 95) * (30 / 5) ∧
    map_percentile_to_position 0 = 0 ∧
    map_percentile_to_position 100 = 100 ∧
    (∀ p q : ℚ, 0 ≤ p → p < q → q ≤ 100 →
      map_percentile_to_position p < map_percentile_to_position q) ∧
    (∀ y : ℚ, 0 ≤ y → y ≤ 100 →
      ∃ p, 0 ≤ p ∧ p ≤ 100 ∧ map_percentile_to_position p = y) := by
  refine ⟨by norm_num [map_percentile_to_position],
    by norm_num [map_percentile_to_position],
    by norm_num [map_percentile_to_position],
    by norm_num [map_percentile_to_position],
    by norm_num [map_percentile_to_position],
    by norm_num [map_percentile_to_position],
    fun p q h0 hpq hq => ?_, fun y hy0 hy100 => ?_⟩
  · simp only [map_percentile_to_position]
    split_ifs <;> linarith
  · by_cases hy1 : y ≤ 40
    · refine ⟨y * (75 / 40), by linarith, by linarith, ?_⟩
      simp only [map_percentile_to_position]
      rw [if_pos (by linarith)]
      ring
    · by_cases hy2 : y ≤ 70
      · refine ⟨75 + (y - 40) * (20 / 30), by linarith, by linarith, ?_⟩
        simp only [map_percentile_to_position]
        rw [if_neg (by linarith), if_pos (by linarith)]
        ring
      · refine ⟨95 + (y - 70) * (5 / 30), by linarith, by linarith, ?_⟩
        simp only [map_percentile_to_position]
        rw [if_neg (by linarith), if_neg (by linarith)]
        ring

/-- Claim C10 witness: strict growth from 10 to 20 and a preimage of 55,
both inside [0, 100]. -/
theorem map_percentile_to_position_bijection_cases :
    map_percentile_to_position 10 < map_percentile_to_position 20 ∧
    (∃ p, 0 ≤ p ∧ p ≤ 100 ∧ map_percentile_to_position p = 55) :=
  ⟨map_percentile_to_position_bijection.2.2.2.2.2.2.1 10 20 (by norm_num)
      (by norm_num) (by norm_num),
   map_percentile_to_position_bijection.2.2.2.2.2.2.2 55 (by norm_num)
      (by norm_num)⟩

/-- In a `≤`-chain the head is at most the last element. -/
theorem chain_head_le_getLast :
    ∀ (l : List ℚ), l.Chain' (fun a b => a ≤ b) →
    ∀ a b, l.head? = some a → l.getLast? = some b → a ≤ b := by
  intro l
  induction l with
  | nil =>
    intro _ a b ha _
    simp at ha
  | cons x t ih =>
    intro hc a b ha hb
    have hax : a = x := by simpa using ha.symm
    subst hax
    cases t with
    | nil =>
      simp at hb
      exact le_of_eq hb
    | cons y t' =>
      have hxy : a ≤ y := (List.chain'_cons.mp hc).1
      have htc : (y :: t').Chain' (fun a b => a ≤ b) := (List.chain'_cons.mp hc).2
      have hb' : (y :: t').getLast? = some b := by
        rw [List.getLast?_cons_cons] at hb
        exact hb
      exact le_trans hxy (ih htc y b rfl hb')

/-- For strictly increasing sample points and monotone ordinates,
`np_interp` never drops below the first ordinate. -/
theorem np_interp_ge_head (x : ℚ) :
    ∀ (xp fp : List ℚ), xp.length = fp.length →
    xp.Chain' (fun a b => a < b) → fp.Chain' (fun a b => a ≤ b) →
    ∀ y0, fp.head? = some y0 → y0 ≤ np_interp x xp fp := by
  intro xp
  induction xp with
  | nil =>
    intro fp hlen _ _ y0 hy0
    cases fp with
    | nil => simp at hy0
    | cons z0 ft => simp at hlen
  | cons x0 xt ih =>
    intro fp hlen hxc hyc y0 hy0
    cases fp with
    | nil => simp at hy0
    | cons z0 ft =>
      have hz : y0 = z0 := by simpa using hy0.symm
      subst hz
      cases xt with
      | nil =>
        cases ft with
        | nil => simp [np_interp]
        | cons z1 ys => simp at hlen
      | cons x1 xs =>
        cases ft with
        | nil => simp at hlen
        | cons z1 ys =>
          have hx01 : x0 < x1 := (List.chain'_cons.mp hxc).1
          have hz01 : y0 ≤ z1 := (List.chain'_cons.mp hyc).1
          simp only [np_interp]
          split_ifs with h1 h2
          · exact le_refl y0
          · have hnn : 0 ≤ (x - x0) * (z1 - y0) / (x1 - x0) := by
              apply div_nonneg
              · apply mul_nonneg <;> linarith
              · linarith
            linarith
          · have htail := ih (z1 :: ys) (by simpa using hlen)
              (List.chain'_cons.mp hxc).2 (List.chain'_cons.mp hyc).2 z1 rfl
            linarith

/-- For strictly increasing sample points and monotone ordinates,
`np_interp` never exceeds the last ordinate. -/
theorem np_interp_le_getLast (x : ℚ) :
    ∀ (xp fp : List ℚ), xp.length = fp.length →
    xp.Chain' (fun a b => a < b) → fp.Chain' (fun a b => a ≤ b) →
    ∀ yl, fp.getLast? = some yl → np_interp x xp fp ≤ yl := by
  intro xp
  induction xp with
  | nil =>
    intro fp hlen _ _ yl hyl
    cases fp with
    | nil => simp at hyl
    | cons z0 ft => simp at hlen
  | cons x0 xt ih =>
    intro fp hlen hxc hyc yl hyl
    cases fp with
    | nil => simp at hyl
    | cons z0 ft =>
      cases xt with
      | nil =>
        cases ft with
        | nil =>
          simp at hyl
          simp [np_interp, hyl]
        | cons z1 ys => simp at hlen
      | cons x1 xs =>
        cases ft with
        | nil => simp at hlen
        | cons z1 ys =>
          have hx01 : x0 < x1 := (List.chain'_cons.mp hxc).1
          have hz01 : z0 ≤ z1 := (List.chain'_cons.mp hyc).1
          have hyl' : (z1 :: ys).getLast? = some yl := by
            rw [List.getLast?_cons_cons] at hyl
            exact hyl
          have hz1l : z1 ≤ yl :=
            chain_head_le_getLast (z1 :: ys) (List.chain'_cons.mp hyc).2 z1 yl rfl hyl'
          simp only [np_interp]
          split_ifs with h1 h2
          · exact chain_head_le_getLast (z0 :: z1 :: ys) hyc z0 yl rfl hyl
          · have hpos : (0 : ℚ) < x1 - x0 := by linarith
            have hmul : (x - x0) * (z1 - z0) ≤ (x1 - x0) * (z1 - z0) :=
              mul_le_mul_of_nonneg_right (by linarith) (by linarith)
            have hd : (x - x0) * (z1 - z0) / (x1 - x0) ≤ z1 - z0 := by
              rw [div_le_iff₀ hpos]
              nlinarith
            linarith
          · exact ih (z1 :: ys) (by simpa using hlen)
              (List.chain'_cons.mp hxc).2 (List.chain'_cons.mp hyc).2 yl hyl'

/-- For strictly increasing sample points and monotone ordinates,
`np_interp` is monotone in its query point. -/
theorem np_interp_mono (a b : ℚ) (hab : a ≤ b) :
    ∀ (xp fp : List ℚ), xp.length = fp.length →
    xp.Chain' (fun u v => u < v) → fp.Chain' (fun u v => u ≤ v) →
    np_interp a xp fp ≤ np_interp b xp fp := by
  intro xp
  induction xp with
  | nil =>
    intro fp hlen _ _
    cases fp with
    | nil => simp [np_interp]
    | cons z0 ft => simp at hlen
  | cons x0 xt ih =>
    intro fp hlen hxc hyc
    cases fp with
    | nil => simp at hlen
    | cons z0 ft =>
      cases xt with
      | nil =>
        cases ft with
        | nil => simp [np_interp]
        | cons z1 ys => simp at hlen
      | cons x1 xs =>
        cases ft with
        | nil => simp at hlen
        | cons z1 ys =>
          have hx01 : x0 < x1 := (List.chain'_cons.mp hxc).1
          have hz01 : z0 ≤ z1 := (List.chain'_cons.mp hyc).1
          have hlen' : (x1 :: xs).length = (z1 :: ys).length := by simpa using hlen
          have hxc' := (List.chain'_cons.mp hxc).2
          have hyc' := (List.chain'_cons.mp hyc).2
          have hpos : (0 : ℚ) < x1 - x0 := by linarith
          simp only [np_interp]
          split_ifs with ha1 hb1 hb2 ha2 hb1 hb2 hb1 hb2
          · exact le_refl z0
          · have hnn : 0 ≤ (b - x0) * (z1 - z0) / (x1 - x0) := by
              apply div_nonneg
              · apply mul_nonneg <;> linarith
              · linarith
            linarith
          · have := np_interp_ge_head b (x1 :: xs) (z1 :: ys) hlen' hxc' hyc' z1 rfl
            linarith
          · linarith
          · have hmul : (a - x0) * (z1 - z0) ≤ (b - x0) * (z1 - z0) :=
              mul_le_mul_of_nonneg_right (by linarith) (by linarith)
            have hdiv : (a - x0) * (z1 - z0) / (x1 - x0) ≤
                (b - x0) * (z1 - z0) / (x1 - x0) :=
              div_le_div_of_nonneg_right hmul hpos.le
            linarith
          · have hmul : (a - x0) * (z1 - z0) ≤ (x1 - x0) * (z1 - z0) :=
              mul_le_mul_of_nonneg_right (by linarith) (by linarith)
            have hd : (a - x0) * (z1 - z0) / (x1 - x0) ≤ z1 - z0 := by
              rw [div_le_iff₀ hpos]
              nlinarith
            have := np_interp_ge_head b (x1 :: xs) (z1 :: ys) hlen' hxc' hyc' z1 rfl
            linarith
          · linarith
          · linarith
          · exact ih (z1 :: ys) hlen' hxc' hyc'

/-- Claim C2: for every reference table (equal-length arrays, strictly
increasing value array), `get_percentile` clamps at the boundaries and never
rejects an input: any value at or below the first table value yields the
first percentile entry, any value at or above the last table value yields
the last percentile entry, and every input yields some result. -/
theorem get_percentile_clamps (perc vals : List ℚ) (v : ℚ)
    (hlen : perc.length = vals.length)
    (hvc : vals.Chain' (fun u w => u < w)) :
    (∀ p0 v0, perc.head? = some p0 → vals.head? = some v0 → v ≤ v0 →
      get_percentile v perc vals = some p0) ∧
    (∀ pl vl, perc.getLast? = some pl → vals.getLast? = some vl → vl ≤ v →
      get_percentile v perc vals = some pl) ∧
    (vals ≠ [] → ∃ r, get_percentile v perc vals = some r) := by
  cases vals with
  | nil =>
    exact ⟨fun p0 v0 _ hv0 => by simp at hv0,
      fun pl vl _ hvl => by simp at hvl,
      fun h => absurd rfl h⟩
  | cons v0 vs =>
    have hlast : (v0 :: vs).getLast? = some (vs.getLastD v0) := by
      rw [List.getLast?_eq_getLast (v0 :: vs) (by simp), List.getLast_eq_getLastD]
    have hpne : perc ≠ [] := by
      intro h
      rw [h] at hlen
      simp at hlen
    refine ⟨?_, ?_, ?_⟩
    · intro p0 w0 hp0 hw0 hvw
      have hw : w0 = v0 := by simpa using hw0.symm
      subst hw
      simp only [get_percentile]
      rw [if_pos hvw]
      exact hp0
    · intro pl vl hpl hvl hlv
      rw [hlast, Option.some_inj] at hvl
      subst hvl
      simp only [get_percentile]
      by_cases hv0' : v ≤ v0
      · cases vs with
        | nil =>
          rw [if_pos hv0']
          match perc, hpl, hlen with
          | [p], hpl, _ =>
            simp only [List.getLast?_singleton, Option.some_inj] at hpl
            subst hpl
            rfl
        | cons v1 vt =>
          have h01 : v0 < v1 := (List.chain'_cons.mp hvc).1
          have hlast' : (v1 :: vt).getLast? = some (vt.getLastD v1) := by
            rw [List.getLast?_eq_getLast (v1 :: vt) (by simp),
              List.getLast_eq_getLastD]
          have hd : (v1 :: vt).getLastD v0 = vt.getLastD v1 := by
            rw [List.getLastD_eq_getLast?, hlast']
            rfl
          have hvle : (v1 :: vt).Chain' (fun u w => u ≤ w) :=
            ((List.chain'_cons.mp hvc).2).imp (fun u w h => le_of_lt h)
          have h1l : v1 ≤ vt.getLastD v1 :=
            chain_head_le_getLast (v1 :: vt) hvle v1 _ rfl hlast'
          rw [hd] at hlv
          linarith
      · rw [if_neg hv0', if_pos hlv]
        exact hpl
    · intro _
      simp only [get_percentile]
      by_cases h1 : v ≤ v0
      · refine ⟨perc.head hpne, ?_⟩
        rw [if_pos h1]
        exact List.head?_eq_head hpne
      · by_cases h2 : vs.getLastD v0 ≤ v
        · refine ⟨perc.getLast hpne, ?_⟩
          rw [if_neg h1, if_pos h2]
          exact List.getLast?_eq_getLast perc hpne
        · have hlenp : perc.length = vs.length + 1 := by simpa using hlen
          refine ⟨np_interp v (v0 :: vs) perc, ?_⟩
          rw [if_neg h1, if_neg h2, if_pos hlenp]

/-- Claim C2 witness: on the standard table with the ApoB values, value 30
(below 41) clamps to percentile 1, value 200 (above 160) clamps to
percentile 99, and value 100 is not rejected. -/
theorem get_percentile_clamps_cases :
    get_percentile 30 percentiles apoB_values = some 1 ∧
    get_percentile 200 percentiles apoB_values = some 99 ∧
    ∃ r, get_percentile 100 percentiles apoB_values = some r :=
  ⟨(get_percentile_clamps percentiles apoB_values 30 rfl
      (by norm_num [apoB_values, List.chain'_cons])).1 1 41 rfl rfl
      (by norm_num),
   (get_percentile_clamps percentiles apoB_values 200 rfl
      (by norm_num [apoB_values, List.chain'_cons])).2.1 99 160 rfl rfl
      (by norm_num),
   (get_percentile_clamps percentiles apoB_values 100 rfl
      (by norm_num [apoB_values, List.chain'_cons])).2.2
      (by simp [apoB_values])⟩

/-- Claim C3: for every reference table whose percentile and value arrays
are both strictly increasing (and of equal length), `get_percentile` is
monotone in the input value: whenever v1 < v2 and both calls return a
result, the first result is at most the second. -/
theorem get_percentile_monotone (perc vals : List ℚ)
    (hlen : perc.length = vals.length)
    (hpc : perc.Chain' (fun u w => u < w))
    (hvc : vals.Chain' (fun u w => u < w))
    (v1 v2 : ℚ) (h12 : v1 < v2) (r1 r2 : ℚ)
    (h1 : get_percentile v1 perc vals = some r1)
    (h2 : get_percentile v2 perc vals = some r2) : r1 ≤ r2 := by
  cases vals with
  | nil => simp [get_percentile] at h1
  | cons v0 vs =>
    have hlast : (v0 :: vs).getLast? = some (vs.getLastD v0) := by
      rw [List.getLast?_eq_getLast (v0 :: vs) (by simp), List.getLast_eq_getLastD]
    have hpne : perc ≠ [] := by
      intro h
      rw [h] at hlen
      simp at hlen
    have hple : perc.Chain' (fun u w => u ≤ w) := hpc.imp (fun u w h => le_of_lt h)
    have hp0 : perc.head? = some (perc.head hpne) := List.head?_eq_head hpne
    have hpl : perc.getLast? = some (perc.getLast hpne) :=
      List.getLast?_eq_getLast perc hpne
    have hhl : perc.head hpne ≤ perc.getLast hpne :=
      chain_head_le_getLast perc hple _ _ hp0 hpl
    have hvle : (v0 :: vs).Chain' (fun u w => u ≤ w) :=
      hvc.imp (fun u w h => le_of_lt h)
    have hv0l : v0 ≤ vs.getLastD v0 :=
      chain_head_le_getLast (v0 :: vs) hvle v0 _ rfl hlast
    have hlenp : perc.length = vs.length + 1 := by simpa using hlen
    have hlenx : (v0 :: vs).length = perc.length := by simpa using hlen.symm
    simp only [get_percentile] at h1 h2
    by_cases c1 : v1 ≤ v0
    · rw [if_pos c1, hp0, Option.some_inj] at h1
      subst h1
      by_cases d1 : v2 ≤ v0
      · rw [if_pos d1, hp0, Option.some_inj] at h2
        subst h2
        exact le_refl _
      · rw [if_neg d1] at h2
        by_cases d2 : vs.getLastD v0 ≤ v2
        · rw [if_pos d2, hpl, Option.some_inj] at h2
          subst h2
          exact hhl
        · rw [if_neg d2, if_pos hlenp, Option.some_inj] at h2
          subst h2
          exact np_interp_ge_head v2 (v0 :: vs) perc hlenx hvc hple _ hp0
    · rw [if_neg c1] at h1
      push_neg at c1
      by_cases c2 : vs.getLastD v0 ≤ v1
      · rw [if_pos c2, hpl, Option.some_inj] at h1
        subst h1
        rw [if_neg (by linarith), if_pos (by linarith), hpl, Option.some_inj] at h2
        subst h2
        exact le_refl _
      · rw [if_neg c2, if_pos hlenp, Option.some_inj] at h1
        subst h1
        rw [if_neg (by linarith : ¬ v2 ≤ v0)] at h2
        by_cases d2 : vs.getLastD v0 ≤ v2
        · rw [if_pos d2, hpl, Option.some_inj] at h2
          subst h2
          exact np_interp_le_getLast v1 (v0 :: vs) perc hlenx hvc hple _ hpl
        · rw [if_neg d2, if_pos hlenp, Option.some_inj] at h2
          subst h2
          exact np_interp_mono v1 v2 (le_of_lt h12) (v0 :: vs) perc hlenx hvc hple

/-- Claim C3 witness: on the standard table with the ApoB values,
`get_percentile` at 50 gives 49/13 and at 100 gives 450/7, and monotonicity
applied at this pair yields 49/13 ≤ 450/7. -/
theorem get_percentile_monotone_instance : (49 / 13 : ℚ) ≤ 450 / 7 :=
  get_percentile_monotone percentiles apoB_values rfl
    (by norm_num [percentiles, List.chain'_cons])
    (by norm_num [apoB_values, List.chain'_cons])
    50 100 (by norm_num) (49 / 13) (450 / 7)
    (by norm_num [get_percentile, np_interp, percentiles, apoB_values,
      List.getLastD])
    (by norm_num [get_percentile, np_interp, percentiles, apoB_values,
      List.getLastD])
